import Mathlib

/-!
Shallow embedding of the `NNData` class of `src/main.py`: a dataset container
holding validated feature/label arrays together with a randomized train/test
index split.

Modelling conventions:
* Python floats are modelled as rationals (`ℚ`); Python `None` as `Option.none`.
* A raw element of an incoming row is a `Value`: either numeric (coercible by
  `np.array(-, dtype=float)`) or a non-numeric token such as the test data's
  strings.  `np.array(-, dtype=float)` is `npArray`, failing exactly when some
  element is non-coercible.
* The global random source is modelled by an explicit draw stream
  `stream : ℕ → ℕ`, whose value at `m` is the result of the `(m+1)`-st call to
  `random.randint(0, size-1)`.  The rejection-sampling while-loop of
  `split_set` is modelled by `drawIter stream target acc k`, the accumulator
  after `k` executions of the loop body; once the guard
  `len(train_indices) < target` fails the iteration is the identity, so the
  post-loop accumulator is `drawIter stream target acc k` for every `k` at or
  beyond the iteration count at which the loop exits.
* Exceptions are explicit: `load_data` returns its error (if any) next to the
  mutated state, and the constructor returns `Except` (a `TypeError` escaping
  it is an `Except.error`).
-/

namespace NNData

/-- A raw element of an incoming feature/label row: either a numeric value
(anything `float()` accepts, modelled by its rational value) or a non-numeric
token (such as the strings in the repository's test data), which
`np.array(-, dtype=float)` fails to coerce. -/
inductive Value where
  | num (q : ℚ)
  | txt
deriving DecidableEq

/-- Coercion of a single element to float, as attempted elementwise by
`np.array(-, dtype=float)`. -/
def Value.toFloat : Value → Option ℚ
  | .num q => some q
  | .txt => none

/-- Errors that can escape `load_data`: the custom `DataMismatchError`, the
`ValueError` raised on failed numeric coercion, and the `TypeError` raised by
`len(labels)` when `labels` is `None` while `features` is not. -/
inductive LoadErr where
  | dataMismatch
  | valueError
  | typeError
deriving DecidableEq

/-- The relevant fields of an `NNData` instance.  `features`/`labels` are
`none` for Python `None` (the invalid state) and `some rows` for a loaded
array (`some []` for the initial empty-list state).  The two deques
`_train_pool`/`_test_pool` are created empty and never touched by any method
in the source, so they are omitted. -/
structure NNState where
  features : Option (List (List ℚ))
  labels : Option (List (List ℚ))
  train_factor : ℚ
  train_indices : List ℕ
  test_indices : List ℕ
deriving DecidableEq

/-- `NNData.percentage_limiter`: clamp a float to the range 0 to 1. -/
def percentage_limiter (percentage : ℚ) : ℚ :=
  if percentage > 1 then 1
  else if percentage < 0 then 0
  else percentage

/-- Elementwise float coercion of one row, as performed by
`np.array(-, dtype=float)`; fails when some element is non-coercible. -/
def coerceRow : List Value → Option (List ℚ)
  | [] => some []
  | v :: vs =>
    match Value.toFloat v, coerceRow vs with
    | some q, some qs => some (q :: qs)
    | _, _ => none

/-- `np.array(rows, dtype=float)`: coerce every row, failing (a `ValueError`)
when any element of any row is non-coercible. -/
def npArray : List (List Value) → Option (List (List ℚ))
  | [] => some []
  | row :: rows =>
    match coerceRow row, npArray rows with
    | some r, some rs => some (r :: rs)
    | _, _ => none

/-- `NNData.load_data(features, labels)` acting on state `s`.  Returns the
state after the call together with the exception raised, if any.
Mirrors the source: if `features` is `None` both fields are set to `None` and
the call returns normally (whatever `labels` is); otherwise `len(labels)`
raises a `TypeError` when `labels` is `None` (before any field assignment);
otherwise unequal lengths set both fields to `None` and raise
`DataMismatchError`; otherwise both sequences are coerced, a coercion failure
setting both fields to `None` and raising `ValueError`. -/
def load_data (s : NNState) (features labels : Option (List (List Value))) :
    NNState × Option LoadErr :=
  match features with
  | none => ({ s with features := none, labels := none }, none)
  | some f =>
    match labels with
    | none => (s, some LoadErr.typeError)
    | some l =>
      if f.length ≠ l.length then
        ({ s with features := none, labels := none }, some LoadErr.dataMismatch)
      else
        match npArray f, npArray l with
        | some fa, some la =>
          ({ s with features := some fa, labels := some la }, none)
        | _, _ => ({ s with features := none, labels := none }, some LoadErr.valueError)

/-- One execution of the body of the rejection-sampling while-loop of
`split_set`: when the guard `len(train_indices) < target` holds, draw `r` and
append it unless it is already selected; otherwise (loop exited) do nothing. -/
def drawStep (target : ℕ) (acc : List ℕ) (r : ℕ) : List ℕ :=
  if acc.length < target then (if r ∈ acc then acc else acc ++ [r]) else acc

/-- The accumulator of the rejection-sampling loop after `k` iterations, the
`m`-th iteration drawing `stream m`. -/
def drawIter (stream : ℕ → ℕ) (target : ℕ) (acc : List ℕ) : ℕ → List ℕ
  | 0 => acc
  | k + 1 => drawStep target (drawIter stream target acc k) (stream k)

/-- `NNData.split_set(new_train_factor)` acting on state `s`, with the random
draws given by `stream` and the sampling loop run for `k` iterations (`k` any
count at or past the loop's exit point; `drawIter` is the identity once the
guard fails).  Mirrors the source: on `features is None` the index lists are
reset and the method returns early; otherwise an optionally supplied new train
factor is clamped and stored, `target = floor(size * train_factor)` indices
are accumulated by rejection sampling (into the existing, uncleared
`_train_indices` list), every index of `range(size)` not in the train list is
appended to the existing `_test_indices` list, and both lists are sorted. -/
def split_set (stream : ℕ → ℕ) (k : ℕ) (new_train_factor : Option ℚ)
    (s : NNState) : NNState :=
  match s.features with
  | none => { s with train_indices := [], test_indices := [] }
  | some feats =>
    let tf := match new_train_factor with
      | some v => percentage_limiter v
      | none => s.train_factor
    let size := feats.length
    let target := ((size : ℚ) * tf).floor.toNat
    let train := drawIter stream target s.train_indices k
    let test := s.test_indices ++ (List.range size).filter (fun i => decide (i ∉ train))
    { s with train_factor := tf,
             train_indices := List.insertionSort (fun a b => a ≤ b) train,
             test_indices := List.insertionSort (fun a b => a ≤ b) test }

/-- A `load_data` call as made from `__init__`: `DataMismatchError` and
`ValueError` are caught (the fields having already been set to `None` by
`load_data`), while a `TypeError` propagates. -/
def tryLoadSwallow (s : NNState) (f l : Option (List (List Value))) :
    Except LoadErr NNState :=
  match load_data s f l with
  | (s', none) => Except.ok s'
  | (_, some LoadErr.typeError) => Except.error LoadErr.typeError
  | (s', some LoadErr.dataMismatch) => Except.ok s'
  | (s', some LoadErr.valueError) => Except.ok s'

/-- `NNData.__init__(features, labels, train_factor)`.  Mirrors the source:
if `features` is `None` set `_features = []`, else call `load_data` catching
only `DataMismatchError`/`ValueError`; then if `labels` is `None` set
`_labels = []`, else call `load_data` again the same way; then clamp and store
the train factor, create the empty index lists, and call `split_set()`.
An uncaught exception aborts construction (`Except.error`). -/
def nndata_init (features labels : Option (List (List Value))) (train_factor : ℚ)
    (stream : ℕ → ℕ) (k : ℕ) : Except LoadErr NNState :=
  let s0 : NNState := ⟨none, none, 0, [], []⟩
  let step1 : Except LoadErr NNState :=
    match features with
    | none => Except.ok { s0 with features := some [] }
    | some _ => tryLoadSwallow s0 features labels
  match step1 with
  | Except.error e => Except.error e
  | Except.ok s1 =>
    let step2 : Except LoadErr NNState :=
      match labels with
      | none => Except.ok { s1 with labels := some [] }
      | some _ => tryLoadSwallow s1 features labels
    match step2 with
    | Except.error e => Except.error e
    | Except.ok s2 =>
      Except.ok (split_set stream k none
        { s2 with train_factor := percentage_limiter train_factor,
                  train_indices := [], test_indices := [] })

/-- The ten-row dataset `list(range(10))` of the repository's `unit_test1`,
with each scalar row written as a one-element vector. -/
def rows10 : List (List Value) :=
  [[Value.num 0], [Value.num 1], [Value.num 2], [Value.num 3], [Value.num 4],
   [Value.num 5], [Value.num 6], [Value.num 7], [Value.num 8], [Value.num 9]]

/-! ### Claim C6: the ratio clamp -/

/-- Claim C6: `percentage_limiter` is a total pure function equal to
`max(0, min(1, value))` on every rational input; in particular it maps `-5`
to `0`, `5` to `1`, and is the identity on `[0, 1]`. -/
theorem percentage_limiter_spec :
    (∀ v : ℚ, percentage_limiter v = max 0 (min 1 v)) ∧
    percentage_limiter (-5) = 0 ∧
    percentage_limiter 5 = 1 ∧
    (∀ v : ℚ, 0 ≤ v → v ≤ 1 → percentage_limiter v = v) := by
  refine ⟨?_, by norm_num [percentage_limiter], by norm_num [percentage_limiter], ?_⟩
  · intro v
    unfold percentage_limiter
    split_ifs with h1 h2
    · rw [min_eq_left h1.le, max_eq_right zero_le_one]
    · rw [min_eq_right (le_of_not_lt h1), max_eq_left h2.le]
    · rw [min_eq_right (le_of_not_lt h1), max_eq_right (le_of_not_lt h2)]
  · intro v h0 h1
    unfold percentage_limiter
    split_ifs with ha hb
    · exact absurd h1 (not_le.mpr ha)
    · exact absurd h0 (not_le.mpr hb)
    · rfl

/-- Witness for C6: the clamp at the in-range input `1/2`, obtained from
`percentage_limiter_spec`. -/
theorem percentage_limiter_spec_witness :
    (0 : ℚ) ≤ 1/2 ∧ (1/2 : ℚ) ≤ 1 ∧ percentage_limiter (1/2) = 1/2 :=
  ⟨by norm_num, by norm_num,
    percentage_limiter_spec.2.2.2 (1/2) (by norm_num) (by norm_num)⟩

/-! ### Claim C4: length-mismatch handling in `load_data` -/

/-- Claim C4: for non-absent feature/label sequences of unequal outer length,
`load_data` raises `DataMismatchError` and leaves both the features field and
the labels field absent. -/
theorem load_data_mismatch_spec (s : NNState) (f l : List (List Value))
    (h : f.length ≠ l.length) :
    load_data s (some f) (some l) =
      ({ s with features := none, labels := none }, some LoadErr.dataMismatch) := by
  simp [load_data, h]

/-- Witness for C4: a one-row feature list against an empty label list. -/
theorem load_data_mismatch_spec_witness :
    load_data ⟨none, none, 0, [], []⟩ (some [[Value.num 0]]) (some []) =
      (⟨none, none, 0, [], []⟩, some LoadErr.dataMismatch) :=
  load_data_mismatch_spec ⟨none, none, 0, [], []⟩ [[Value.num 0]] [] (by decide)

/-! ### Claim C10: the length check precedes coercion -/

/-- Claim C10: when both the lengths mismatch and some element is
non-coercible, `load_data` raises `DataMismatchError`, not `ValueError`: the
length check runs before any numeric coercion is attempted. -/
theorem load_data_mismatch_precedence_spec (s : NNState) (f l : List (List Value))
    (hlen : f.length ≠ l.length)
    (hbad : ∃ row, (row ∈ f ∨ row ∈ l) ∧ ∃ v ∈ row, Value.toFloat v = none) :
    (load_data s (some f) (some l)).2 = some LoadErr.dataMismatch ∧
    (load_data s (some f) (some l)).2 ≠ some LoadErr.valueError := by
  simp [load_data, hlen]

/-- Witness for C10: a one-row feature list containing a non-numeric element
against an empty label list. -/
theorem load_data_mismatch_precedence_spec_witness :
    (load_data ⟨none, none, 0, [], []⟩ (some [[Value.txt]]) (some [])).2 =
      some LoadErr.dataMismatch ∧
    (load_data ⟨none, none, 0, [], []⟩ (some [[Value.txt]]) (some [])).2 ≠
      some LoadErr.valueError :=
  load_data_mismatch_precedence_spec ⟨none, none, 0, [], []⟩ [[Value.txt]] []
    (by decide) ⟨[Value.txt], Or.inl (by simp), Value.txt, by simp, rfl⟩

/-! ### Coercion helpers -/

/-- A row fails elementwise coercion exactly when some element of it is
non-coercible. -/
theorem coerceRow_eq_none_iff (row : List Value) :
    coerceRow row = none ↔ ∃ v ∈ row, Value.toFloat v = none := by
  induction row with
  | nil => simp [coerceRow]
  | cons v vs ih =>
    constructor
    · intro h
      cases hv : Value.toFloat v with
      | none => exact ⟨v, List.mem_cons_self v vs, hv⟩
      | some q =>
        cases hvs : coerceRow vs with
        | none =>
          obtain ⟨w, hw, hwn⟩ := ih.mp hvs
          exact ⟨w, List.mem_cons_of_mem v hw, hwn⟩
        | some qs =>
          rw [show coerceRow (v :: vs) = some (q :: qs) by
            simp only [coerceRow, hv, hvs]] at h
          exact absurd h (by simp)
    · rintro ⟨w, hw, hwn⟩
      rcases List.mem_cons.mp hw with rfl | hw'
      · simp only [coerceRow, hwn]
      · simp only [coerceRow, ih.mpr ⟨w, hw', hwn⟩]
        cases Value.toFloat v <;> rfl

/-- Successful elementwise coercion preserves the row length. -/
theorem coerceRow_length : ∀ {row : List Value} {qs : List ℚ},
    coerceRow row = some qs → qs.length = row.length := by
  intro row
  induction row with
  | nil => intro qs h; simp [coerceRow] at h; simp [← h]
  | cons v vs ih =>
    intro qs h
    cases hv : Value.toFloat v with
    | none => rw [show coerceRow (v :: vs) = none by simp only [coerceRow, hv]] at h; exact absurd h (by simp)
    | some q =>
      cases hvs : coerceRow vs with
      | none =>
        rw [show coerceRow (v :: vs) = none by simp only [coerceRow, hv, hvs]] at h
        exact absurd h (by simp)
      | some qs' =>
        rw [show coerceRow (v :: vs) = some (q :: qs') by simp only [coerceRow, hv, hvs]] at h
        cases h
        simp [ih hvs]

/-- `np.array(-, dtype=float)` fails exactly when some element of some row is
non-coercible. -/
theorem npArray_eq_none_iff (rows : List (List Value)) :
    npArray rows = none ↔ ∃ row ∈ rows, ∃ v ∈ row, Value.toFloat v = none := by
  induction rows with
  | nil => simp [npArray]
  | cons row rows ih =>
    constructor
    · intro h
      cases hr : coerceRow row with
      | none =>
        obtain ⟨v, hv, hvn⟩ := (coerceRow_eq_none_iff row).mp hr
        exact ⟨row, List.mem_cons_self row rows, v, hv, hvn⟩
      | some r =>
        cases hrs : npArray rows with
        | none =>
          obtain ⟨row', hrow', hbad⟩ := ih.mp hrs
          exact ⟨row', List.mem_cons_of_mem row hrow', hbad⟩
        | some rs =>
          rw [show npArray (row :: rows) = some (r :: rs) by
            simp only [npArray, hr, hrs]] at h
          exact absurd h (by simp)
    · rintro ⟨row', hrow', hbad⟩
      rcases List.mem_cons.mp hrow' with rfl | hrow''
      · simp only [npArray, (coerceRow_eq_none_iff row').mpr hbad]
      · simp only [npArray, ih.mpr ⟨row', hrow'', hbad⟩]
        cases coerceRow row <;> rfl

/-- Successful array coercion preserves the outer length. -/
theorem npArray_length : ∀ {rows : List (List Value)} {as : List (List ℚ)},
    npArray rows = some as → as.length = rows.length := by
  intro rows
  induction rows with
  | nil =>
    intro as h
    simp only [npArray] at h
    injection h with h2
    subst h2
    rfl
  | cons row rows ih =>
    intro as h
    cases hr : coerceRow row with
    | none => rw [show npArray (row :: rows) = none by simp only [npArray, hr]] at h; exact absurd h (by simp)
    | some r =>
      cases hrs : npArray rows with
      | none =>
        rw [show npArray (row :: rows) = none by simp only [npArray, hr, hrs]] at h
        exact absurd h (by simp)
      | some rs =>
        rw [show npArray (row :: rows) = some (r :: rs) by simp only [npArray, hr, hrs]] at h
        cases h
        simp [ih hrs]

/-! ### Claim C5: coercion handling in `load_data` -/

/-- Claim C5: on equal-length inputs, `load_data` raises `ValueError` exactly
when some element is non-coercible (leaving both fields absent), and succeeds
when every element is coercible, storing arrays of the input outer length. -/
theorem load_data_coercion_spec (s : NNState) (f l : List (List Value))
    (hlen : f.length = l.length) :
    ((load_data s (some f) (some l)).2 = some LoadErr.valueError ↔
      ∃ row, (row ∈ f ∨ row ∈ l) ∧ ∃ v ∈ row, Value.toFloat v = none) ∧
    ((load_data s (some f) (some l)).2 = some LoadErr.valueError →
      (load_data s (some f) (some l)).1.features = none ∧
      (load_data s (some f) (some l)).1.labels = none) ∧
    ((∀ row, (row ∈ f ∨ row ∈ l) → ∀ v ∈ row, Value.toFloat v ≠ none) →
      ∃ fa la, load_data s (some f) (some l) =
        ({ s with features := some fa, labels := some la }, none) ∧
        fa.length = f.length ∧ la.length = l.length) := by
  have hne : ¬ f.length ≠ l.length := by omega
  cases hf : npArray f with
  | none =>
    obtain ⟨row, hrow, hbad⟩ := (npArray_eq_none_iff f).mp hf
    have hres : load_data s (some f) (some l) =
        ({ s with features := none, labels := none }, some LoadErr.valueError) := by
      simp only [load_data, if_neg hne, hf]
    rw [hres]
    refine ⟨⟨fun _ => ⟨row, Or.inl hrow, hbad⟩, fun _ => rfl⟩, fun _ => ⟨rfl, rfl⟩, ?_⟩
    intro hall
    obtain ⟨v, hv, hvn⟩ := hbad
    exact absurd hvn (hall row (Or.inl hrow) v hv)
  | some fa =>
    cases hl : npArray l with
    | none =>
      obtain ⟨row, hrow, hbad⟩ := (npArray_eq_none_iff l).mp hl
      have hres : load_data s (some f) (some l) =
          ({ s with features := none, labels := none }, some LoadErr.valueError) := by
        simp only [load_data, if_neg hne, hf, hl]
      rw [hres]
      refine ⟨⟨fun _ => ⟨row, Or.inr hrow, hbad⟩, fun _ => rfl⟩, fun _ => ⟨rfl, rfl⟩, ?_⟩
      intro hall
      obtain ⟨v, hv, hvn⟩ := hbad
      exact absurd hvn (hall row (Or.inr hrow) v hv)
    | some la =>
      have hres : load_data s (some f) (some l) =
          ({ s with features := some fa, labels := some la }, none) := by
        simp only [load_data, if_neg hne, hf, hl]
      rw [hres]
      refine ⟨⟨fun h => absurd h (by simp), ?_⟩, fun h => absurd h (by simp), ?_⟩
      · rintro ⟨row, hrow, hbad⟩
        rcases hrow with hrow | hrow
        · exact absurd hf (by rw [(npArray_eq_none_iff f).mpr ⟨row, hrow, hbad⟩]; simp)
        · exact absurd hl (by rw [(npArray_eq_none_iff l).mpr ⟨row, hrow, hbad⟩]; simp)
      · intro _
        exact ⟨fa, la, rfl, npArray_length hf, npArray_length hl⟩

/-- Witness for C5: a one-row numeric feature list against a one-row label
list containing a non-numeric element. -/
theorem load_data_coercion_spec_witness :
    ([[Value.num 1]] : List (List Value)).length = ([[Value.txt]] : List (List Value)).length ∧
    (load_data ⟨none, none, 0, [], []⟩ (some [[Value.num 1]]) (some [[Value.txt]])).2 =
      some LoadErr.valueError :=
  ⟨rfl, (load_data_coercion_spec ⟨none, none, 0, [], []⟩ [[Value.num 1]] [[Value.txt]] rfl).1.mpr
    ⟨[Value.txt], Or.inr (by simp), Value.txt, by simp, rfl⟩⟩

/-! ### Frame helpers for `split_set` -/

/-- `split_set` never writes the features field. -/
theorem split_set_features_eq (stream : ℕ → ℕ) (k : ℕ) (ntf : Option ℚ) (s : NNState) :
    (split_set stream k ntf s).features = s.features := by
  cases hf : s.features <;> simp [split_set, hf]

/-- `split_set` never writes the labels field. -/
theorem split_set_labels_eq (stream : ℕ → ℕ) (k : ℕ) (ntf : Option ℚ) (s : NNState) :
    (split_set stream k ntf s).labels = s.labels := by
  cases hf : s.features <;> simp [split_set, hf]

/-- `split_set` with no new ratio never writes the train factor. -/
theorem split_set_tf_none (stream : ℕ → ℕ) (k : ℕ) (s : NNState) :
    (split_set stream k none s).train_factor = s.train_factor := by
  cases hf : s.features <;> simp [split_set, hf]

/-! ### Claim C9: the frame of `split_set` -/

/-- Claim C9: every call to `split_set` leaves the stored feature and label
arrays unchanged, and when no new ratio is given the train factor is also
unchanged; partitioning writes only the index collections (and, on a new
ratio, the clamped factor). -/
theorem split_set_frame (stream : ℕ → ℕ) (k : ℕ) (ntf : Option ℚ) (s : NNState) :
    (split_set stream k ntf s).features = s.features ∧
    (split_set stream k ntf s).labels = s.labels ∧
    (split_set stream k none s).train_factor = s.train_factor :=
  ⟨split_set_features_eq stream k ntf s, split_set_labels_eq stream k ntf s,
    split_set_tf_none stream k s⟩

/-! ### The rejection-sampling loop -/

theorem drawIter_zero (stream : ℕ → ℕ) (target : ℕ) (acc : List ℕ) :
    drawIter stream target acc 0 = acc := rfl

theorem drawIter_succ (stream : ℕ → ℕ) (target : ℕ) (acc : List ℕ) (k : ℕ) :
    drawIter stream target acc (k + 1) =
      drawStep target (drawIter stream target acc k) (stream k) := rfl

/-- An iteration of the loop body either keeps the accumulator or appends the
draw to it. -/
theorem drawStep_eq_or (target : ℕ) (acc : List ℕ) (r : ℕ) :
    drawStep target acc r = acc ∨ drawStep target acc r = acc ++ [r] := by
  unfold drawStep
  split_ifs with h1 h2
  · exact Or.inl rfl
  · exact Or.inr rfl
  · exact Or.inl rfl

/-- Monotonicity of the loop: a later accumulator extends an earlier one. -/
theorem drawIter_append_of_le (stream : ℕ → ℕ) (target : ℕ) (acc : List ℕ)
    {k k' : ℕ} (h : k ≤ k') :
    ∃ t, drawIter stream target acc k' = drawIter stream target acc k ++ t := by
  induction k', h using Nat.le_induction with
  | base => exact ⟨[], (List.append_nil _).symm⟩
  | succ n hn ih =>
    obtain ⟨t, ht⟩ := ih
    rcases drawStep_eq_or target (drawIter stream target acc n) (stream n) with h1 | h1
    · exact ⟨t, by rw [drawIter_succ, h1, ht]⟩
    · exact ⟨t ++ [stream n], by rw [drawIter_succ, h1, ht, List.append_assoc]⟩

theorem drawIter_length_mono (stream : ℕ → ℕ) (target : ℕ) (acc : List ℕ)
    {k k' : ℕ} (h : k ≤ k') :
    (drawIter stream target acc k).length ≤ (drawIter stream target acc k').length := by
  obtain ⟨t, ht⟩ := drawIter_append_of_le stream target acc h
  rw [ht, List.length_append]
  omega

theorem drawIter_eq_of_length_eq (stream : ℕ → ℕ) (target : ℕ) (acc : List ℕ)
    {k k' : ℕ} (h : k ≤ k')
    (hlen : (drawIter stream target acc k').length = (drawIter stream target acc k).length) :
    drawIter stream target acc k' = drawIter stream target acc k := by
  obtain ⟨t, ht⟩ := drawIter_append_of_le stream target acc h
  have ht0 : t = [] := by
    rw [ht, List.length_append] at hlen
    exact List.length_eq_zero.mp (by omega)
  simp [ht, ht0]

/-- The loop never introduces a duplicate. -/
theorem drawIter_nodup (stream : ℕ → ℕ) (target : ℕ) (acc : List ℕ)
    (ha : acc.Nodup) (k : ℕ) : (drawIter stream target acc k).Nodup := by
  induction k with
  | zero => exact ha
  | succ n ih =>
    rw [drawIter_succ]
    unfold drawStep
    split_ifs with h1 h2
    · exact ih
    · simp [List.nodup_append, ih, h2]
    · exact ih

/-- Draws below `n` keep every accumulated index below `n`. -/
theorem drawIter_bound (stream : ℕ → ℕ) (target : ℕ) {n : ℕ}
    (hs : ∀ m, stream m < n) (acc : List ℕ) (ha : ∀ x ∈ acc, x < n) (k : ℕ) :
    ∀ x ∈ drawIter stream target acc k, x < n := by
  induction k with
  | zero => exact ha
  | succ m ih =>
    rw [drawIter_succ]
    unfold drawStep
    split_ifs with h1 h2
    · exact ih
    · intro x hx
      rcases List.mem_append.mp hx with hx | hx
      · exact ih x hx
      · simp only [List.mem_singleton] at hx
        subst hx
        exact hs m
    · exact ih

/-- The guard keeps the accumulator length at most `target`. -/
theorem drawIter_length_le (stream : ℕ → ℕ) (target : ℕ) (acc : List ℕ)
    (ha : acc.length ≤ target) (k : ℕ) :
    (drawIter stream target acc k).length ≤ target := by
  induction k with
  | zero => exact ha
  | succ m ih =>
    rw [drawIter_succ]
    unfold drawStep
    split_ifs with h1 h2
    · exact ih
    · simp only [List.length_append, List.length_singleton]
      omega
    · exact ih

/-- Once the guard fails the loop body is the identity; in particular a stale
accumulator already at or above `target` is never touched. -/
theorem drawIter_stable (stream : ℕ → ℕ) {target : ℕ} {acc : List ℕ}
    (h : target ≤ acc.length) (k : ℕ) :
    drawIter stream target acc k = acc := by
  induction k with
  | zero => rfl
  | succ m ih =>
    rw [drawIter_succ, ih]
    unfold drawStep
    rw [if_neg (by omega)]

/-- Pigeonhole: a duplicate-free list of naturals below `n`, shorter than `n`,
misses some value below `n`. -/
theorem exists_unchosen {n : ℕ} {l : List ℕ} (hnd : l.Nodup)
    (hlt : ∀ x ∈ l, x < n) (hlen : l.length < n) : ∃ i, i < n ∧ i ∉ l := by
  by_contra hc
  push_neg at hc
  have hsub : Finset.range n ⊆ l.toFinset := by
    intro i hi
    rw [List.mem_toFinset]
    exact hc i (Finset.mem_range.mp hi)
  have hcard := Finset.card_le_card hsub
  rw [Finset.card_range, List.toFinset_card_of_nodup hnd] at hcard
  omega

/-- Progress: as long as the sampling loop started from the empty list has
fewer than `target` indices, a fair draw stream eventually grows it. -/
theorem drawIter_progress {n target : ℕ} {stream : ℕ → ℕ}
    (hs : ∀ m, stream m < n) (ht : target ≤ n)
    (hfair : ∀ i, i < n → ∀ m₀, ∃ m, m₀ ≤ m ∧ stream m = i)
    (k : ℕ) (hk : (drawIter stream target [] k).length < target) :
    ∃ k', k ≤ k' ∧
      (drawIter stream target [] k).length < (drawIter stream target [] k').length := by
  have hnd := drawIter_nodup stream target [] List.nodup_nil k
  have hbd := drawIter_bound stream target hs [] (fun x hx => absurd hx (List.not_mem_nil x)) k
  have hlt : (drawIter stream target [] k).length < n := lt_of_lt_of_le hk ht
  obtain ⟨i, hin, hni⟩ := exists_unchosen hnd hbd hlt
  obtain ⟨m, hkm, hsm⟩ := hfair i hin k
  by_cases hlen : (drawIter stream target [] k).length < (drawIter stream target [] m).length
  · exact ⟨m, hkm, hlen⟩
  · have hmono := drawIter_length_mono stream target ([] : List ℕ) hkm
    have heq : drawIter stream target [] m = drawIter stream target [] k :=
      drawIter_eq_of_length_eq stream target [] hkm (by omega)
    refine ⟨m + 1, by omega, ?_⟩
    rw [drawIter_succ, drawStep, heq, hsm, if_pos hk, if_neg hni]
    simp

/-- Reachability: with a fair stream the sampling loop attains `target`
accumulated indices within finitely many iterations. -/
theorem drawIter_reach {n target : ℕ} {stream : ℕ → ℕ}
    (hs : ∀ m, stream m < n) (ht : target ≤ n)
    (hfair : ∀ i, i < n → ∀ m₀, ∃ m, m₀ ≤ m ∧ stream m = i) :
    ∀ d k, target - (drawIter stream target [] k).length ≤ d →
      ∃ k', (drawIter stream target [] k').length = target := by
  intro d
  induction d with
  | zero =>
    intro k hk
    have hle := drawIter_length_le stream target [] (Nat.zero_le target) k
    exact ⟨k, by omega⟩
  | succ d ih =>
    intro k hk
    by_cases hlt : (drawIter stream target [] k).length < target
    · obtain ⟨k', _, hprog⟩ := drawIter_progress hs ht hfair k hlt
      exact ih k' (by omega)
    · have hle := drawIter_length_le stream target [] (Nat.zero_le target) k
      exact ⟨k, by omega⟩

/-! ### Claim C8: termination of the sampling loop -/

/-- Claim C8: for every dataset size `n ≥ 1` and target up to `n` (the
boundary `target = n` included), the rejection-sampling loop terminates with
exactly `target` accumulated indices, all distinct and below `n`.  The random
source is modelled as an arbitrary draw stream that is fair in the sense that
every index below `n` keeps occurring — the property a genuine random source
has with probability one. -/
theorem sampling_loop_terminates (n target : ℕ) (stream : ℕ → ℕ)
    (hn : 0 < n) (ht : target ≤ n) (hs : ∀ m, stream m < n)
    (hfair : ∀ i, i < n → ∀ m₀, ∃ m, m₀ ≤ m ∧ stream m = i) :
    ∃ k, (drawIter stream target [] k).length = target ∧
      (drawIter stream target [] k).Nodup ∧
      ∀ x ∈ drawIter stream target [] k, x < n := by
  obtain ⟨k, hk⟩ := drawIter_reach hs ht hfair target 0 (by omega)
  exact ⟨k, hk, drawIter_nodup stream target [] List.nodup_nil k,
    drawIter_bound stream target hs [] (fun x hx => absurd hx (List.not_mem_nil x)) k⟩

/-- Witness for C8: size 2, target 2 (the boundary case), with the cyclic
draw stream `m % 2`. -/
theorem sampling_loop_terminates_witness :
    ∃ k, (drawIter (fun m => m % 2) 2 [] k).length = 2 ∧
      (drawIter (fun m => m % 2) 2 [] k).Nodup ∧
      ∀ x ∈ drawIter (fun m => m % 2) 2 [] k, x < 2 :=
  sampling_loop_terminates 2 2 (fun m => m % 2) (by omega) (by omega)
    (fun m => Nat.mod_lt m (by omega))
    (fun i hi m₀ => ⟨2 * m₀ + i, by omega, by show (2 * m₀ + i) % 2 = i; omega⟩)

/-! ### Empty and invalid datasets -/

theorem rat_floor_zero : (0 : ℚ).floor = 0 := rfl

/-- On a dataset with an empty features list and empty index lists,
`split_set` leaves both index lists empty: the target is `floor(0 * tf) = 0`,
so the sampling loop never runs and the complement loop ranges over nothing. -/
theorem split_set_empty_indices (stream : ℕ → ℕ) (k : ℕ) (ntf : Option ℚ)
    (s : NNState) (hf : s.features = some []) (h1 : s.train_indices = [])
    (h2 : s.test_indices = []) :
    (split_set stream k ntf s).train_indices = [] ∧
    (split_set stream k ntf s).test_indices = [] := by
  have hd : drawIter stream 0 ([] : List ℕ) k = [] :=
    drawIter_stable stream (Nat.zero_le _) k
  constructor <;>
    simp [split_set, hf, h1, h2, hd, rat_floor_zero, List.insertionSort]

/-! ### Claim C7: EMPTY and INVALID datasets yield empty partitions -/

/-- Claim C7: on an INVALID dataset (features absent) `split_set` returns
empty train and test index lists; on an EMPTY dataset (constructed with no
data: features the empty list, index lists empty) it does too; and
construction with no data indeed produces that EMPTY state with an empty
partition. -/
theorem split_set_empty_invalid_spec (stream : ℕ → ℕ) (k : ℕ) (ntf : Option ℚ)
    (s : NNState) :
    (s.features = none →
      (split_set stream k ntf s).train_indices = [] ∧
      (split_set stream k ntf s).test_indices = []) ∧
    (s.features = some [] → s.train_indices = [] → s.test_indices = [] →
      (split_set stream k ntf s).train_indices = [] ∧
      (split_set stream k ntf s).test_indices = []) ∧
    (∀ tf : ℚ, ∃ s0, nndata_init none none tf stream k = Except.ok s0 ∧
      s0.features = some [] ∧ s0.labels = some [] ∧
      s0.train_indices = [] ∧ s0.test_indices = []) := by
  refine ⟨?_, ?_, ?_⟩
  · intro hf
    constructor <;> simp [split_set, hf]
  · exact split_set_empty_indices stream k ntf s
  · intro tf
    refine ⟨split_set stream k none
      ⟨some [], some [], percentage_limiter tf, [], []⟩, rfl, ?_, ?_, ?_⟩
    · exact split_set_features_eq stream k none _
    · exact split_set_labels_eq stream k none _
    · exact split_set_empty_indices stream k none _ rfl rfl rfl

/-- Witness for C7: an INVALID state with stale index lists, and the EMPTY
state reached by constructing with no data. -/
theorem split_set_empty_invalid_spec_witness :
    ((split_set (fun _ => 0) 0 none ⟨none, none, 1/2, [5], [7]⟩).train_indices = [] ∧
      (split_set (fun _ => 0) 0 none ⟨none, none, 1/2, [5], [7]⟩).test_indices = []) ∧
    (∃ s0, nndata_init none none 1 (fun _ => 0) 0 = Except.ok s0 ∧
      s0.features = some [] ∧ s0.labels = some [] ∧
      s0.train_indices = [] ∧ s0.test_indices = []) :=
  ⟨(split_set_empty_invalid_spec (fun _ => 0) 0 none ⟨none, none, 1/2, [5], [7]⟩).1 rfl,
    (split_set_empty_invalid_spec (fun _ => 0) 0 none ⟨none, none, 1/2, [5], [7]⟩).2.2 1⟩

/-! ### Claim C3: exceptions escaping the constructor -/

/-- The outcome of `load_data` on two present sequences does not depend on the
incoming state: either a mismatch error, a coercion error, or success, each
setting the fields the same way for every state. -/
theorem load_data_trichotomy (f l : List (List Value)) :
    (∀ s, load_data s (some f) (some l) =
      ({ s with features := none, labels := none }, some LoadErr.dataMismatch)) ∨
    (∀ s, load_data s (some f) (some l) =
      ({ s with features := none, labels := none }, some LoadErr.valueError)) ∨
    (∃ fa la, ∀ s, load_data s (some f) (some l) =
      ({ s with features := some fa, labels := some la }, none)) := by
  by_cases hlen : f.length ≠ l.length
  · exact Or.inl fun s => by simp [load_data, hlen]
  · cases hf : npArray f with
    | none => exact Or.inr (Or.inl fun s => by simp only [load_data, if_neg hlen, hf])
    | some fa =>
      cases hl : npArray l with
      | none =>
        exact Or.inr (Or.inl fun s => by simp only [load_data, if_neg hlen, hf, hl])
      | some la =>
        exact Or.inr (Or.inr ⟨fa, la, fun s => by
          simp only [load_data, if_neg hlen, hf, hl]⟩)

/-- On two present sequences with a defect (a length mismatch or a
non-coercible element), `load_data` raises: its error component is never
`none`. -/
theorem load_data_snd_ne_none (f l : List (List Value)) (s : NNState)
    (hbad : f.length ≠ l.length ∨
      ∃ row, (row ∈ f ∨ row ∈ l) ∧ ∃ v ∈ row, Value.toFloat v = none) :
    (load_data s (some f) (some l)).2 ≠ none := by
  by_cases hlen : f.length ≠ l.length
  · simp [load_data, hlen]
  · rcases hbad with hbad | ⟨row, hrow, hbadv⟩
    · exact absurd hbad hlen
    · rcases hrow with hrow | hrow
      · have hf : npArray f = none := (npArray_eq_none_iff f).mpr ⟨row, hrow, hbadv⟩
        simp [load_data, if_neg hlen, hf]
      · have hl : npArray l = none := (npArray_eq_none_iff l).mpr ⟨row, hrow, hbadv⟩
        cases hf : npArray f with
        | none => simp [load_data, if_neg hlen, hf]
        | some fa => simp [load_data, if_neg hlen, hf, hl]

/-- Counterexample to C3 as stated: constructing with features present and
labels absent propagates a `TypeError` (from `len(None)` inside `load_data`)
out of the constructor. -/
theorem nndata_init_labels_absent_raises :
    nndata_init (some [[Value.num 0]]) none (9/10) (fun _ => 0) 0 =
      Except.error LoadErr.typeError := rfl

/-- Claim C3 (amended): for every combination of constructor inputs in which
labels are provided whenever features are provided, construction never
propagates an exception; the resulting fields are both absent or both
present, and any validation failure (a length mismatch or a non-coercible
element in two present sequences) leaves the instance in the invalid state,
both fields absent.  (As stated the claim fails: features present with labels
absent raises a `TypeError`, see `nndata_init_labels_absent_raises`.) -/
theorem nndata_init_no_raise (f l : Option (List (List Value))) (tf : ℚ)
    (stream : ℕ → ℕ) (k : ℕ) (h : l = none → f = none) :
    (∃ s, nndata_init f l tf stream k = Except.ok s) ∧
    (∀ s, nndata_init f l tf stream k = Except.ok s →
      (s.features = none ∧ s.labels = none) ∨
      ∃ fa la, s.features = some fa ∧ s.labels = some la) ∧
    (∀ g m, f = some g → l = some m →
      (g.length ≠ m.length ∨
        ∃ row, (row ∈ g ∨ row ∈ m) ∧ ∃ v ∈ row, Value.toFloat v = none) →
      ∀ s, nndata_init f l tf stream k = Except.ok s →
        s.features = none ∧ s.labels = none) := by
  cases f with
  | none =>
    cases l with
    | none =>
      refine ⟨⟨_, rfl⟩, ?_, ?_⟩
      · intro s hs
        have hs' : Except.ok (split_set stream k none
            ⟨some [], some [], percentage_limiter tf, [], []⟩) = Except.ok s := hs
        injection hs' with h2
        subst h2
        exact Or.inr ⟨[], [],
          split_set_features_eq stream k none _, split_set_labels_eq stream k none _⟩
      · intro g m hg
        exact Option.noConfusion hg
    | some l' =>
      refine ⟨⟨_, rfl⟩, ?_, ?_⟩
      · intro s hs
        have hs' : Except.ok (split_set stream k none
            ⟨none, none, percentage_limiter tf, [], []⟩) = Except.ok s := hs
        injection hs' with h2
        subst h2
        exact Or.inl ⟨split_set_features_eq stream k none _,
          split_set_labels_eq stream k none _⟩
      · intro g m hg
        exact Option.noConfusion hg
  | some f' =>
    cases l with
    | none => exact absurd (h rfl) (by simp)
    | some l' =>
      rcases load_data_trichotomy f' l' with hld | hld | ⟨fa, la, hld⟩
      · have hinit : nndata_init (some f') (some l') tf stream k =
            Except.ok (split_set stream k none
              ⟨none, none, percentage_limiter tf, [], []⟩) := by
          simp only [nndata_init, tryLoadSwallow, hld]
        refine ⟨⟨_, hinit⟩, ?_, ?_⟩
        · intro s hs
          rw [hinit] at hs
          injection hs with h2
          subst h2
          exact Or.inl ⟨split_set_features_eq stream k none _,
            split_set_labels_eq stream k none _⟩
        · intro g m hg hm hbad s hs
          rw [hinit] at hs
          injection hs with h2
          subst h2
          exact ⟨split_set_features_eq stream k none _,
            split_set_labels_eq stream k none _⟩
      · have hinit : nndata_init (some f') (some l') tf stream k =
            Except.ok (split_set stream k none
              ⟨none, none, percentage_limiter tf, [], []⟩) := by
          simp only [nndata_init, tryLoadSwallow, hld]
        refine ⟨⟨_, hinit⟩, ?_, ?_⟩
        · intro s hs
          rw [hinit] at hs
          injection hs with h2
          subst h2
          exact Or.inl ⟨split_set_features_eq stream k none _,
            split_set_labels_eq stream k none _⟩
        · intro g m hg hm hbad s hs
          rw [hinit] at hs
          injection hs with h2
          subst h2
          exact ⟨split_set_features_eq stream k none _,
            split_set_labels_eq stream k none _⟩
      · have hinit : nndata_init (some f') (some l') tf stream k =
            Except.ok (split_set stream k none
              ⟨some fa, some la, percentage_limiter tf, [], []⟩) := by
          simp only [nndata_init, tryLoadSwallow, hld]
        refine ⟨⟨_, hinit⟩, ?_, ?_⟩
        · intro s hs
          rw [hinit] at hs
          injection hs with h2
          subst h2
          exact Or.inr ⟨fa, la, split_set_features_eq stream k none _,
            split_set_labels_eq stream k none _⟩
        · intro g m hg hm hbad s hs
          injection hg with hg2
          injection hm with hm2
          subst hg2
          subst hm2
          have hok := congrArg Prod.snd (hld ⟨none, none, 0, [], []⟩)
          exact absurd hok
            (load_data_snd_ne_none f' l' ⟨none, none, 0, [], []⟩ hbad)

/-- Witness for C3 (amended): a mismatched-length construction (one feature
row against no label rows), which returns normally with both fields absent. -/
theorem nndata_init_no_raise_witness :
    (∃ s, nndata_init (some [[Value.num 0]]) (some []) 1 (fun _ => 0) 0 =
      Except.ok s) ∧
    (∀ s, nndata_init (some [[Value.num 0]]) (some []) 1 (fun _ => 0) 0 =
        Except.ok s →
      (s.features = none ∧ s.labels = none) ∨
      ∃ fa la, s.features = some fa ∧ s.labels = some la) ∧
    (∀ g m, (some [[Value.num 0]] : Option (List (List Value))) = some g →
      (some [] : Option (List (List Value))) = some m →
      (g.length ≠ m.length ∨
        ∃ row, (row ∈ g ∨ row ∈ m) ∧ ∃ v ∈ row, Value.toFloat v = none) →
      ∀ s, nndata_init (some [[Value.num 0]]) (some []) 1 (fun _ => 0) 0 =
          Except.ok s →
        s.features = none ∧ s.labels = none) :=
  nndata_init_no_raise (some [[Value.num 0]]) (some []) 1 (fun _ => 0) 0
    (fun hl => Option.noConfusion hl)

/-! ### Claims C1 and C2: the re-partition bug of `split_set` -/

/-- Claim C1 (code bug witnessed): the partition invariants fail on a repeat
call of `split_set`.  A ten-row dataset built with the default train factor
0.9 (draw stream `m % 10`, loop exiting after 9 iterations) has train indices
`[0..8]` and test indices `[9]`; the subsequent `split_set(0.3)` call of the
repository's `unit_test1` then leaves 9 train indices — not
`floor(10 * 0.3) = 3` — and appends a duplicate, making the test list
`[9, 9]`: the collections are neither duplicate-free nor a partition of
size-3/size-7. -/
theorem split_set_recall_bug :
    ∃ s : NNState,
      nndata_init (some rows10) (some rows10) (9/10) (fun m => m % 10) 9 =
        Except.ok s ∧
      s.train_indices = [0, 1, 2, 3, 4, 5, 6, 7, 8] ∧
      s.test_indices = [9] ∧
      (split_set (fun m => m % 10) 0 (some (3/10)) s).train_indices.length = 9 ∧
      (split_set (fun m => m % 10) 0 (some (3/10)) s).test_indices = [9, 9] := by
  refine ⟨_, rfl, ?_, ?_, ?_, ?_⟩ <;> with_unfolding_all decide

/-- Claim C2 (code bug witnessed): `split_set` does not discard the previous
partition.  A ten-row dataset built with train factor 0.3 starts with train
indices `[0, 1, 2]` and test indices `[3..9]`; each further `split_set(0.3)`
call keeps the stale train list and re-appends the complement to the test
list, which grows to 14 and then 21 entries instead of staying at 7. -/
theorem split_set_repeat_bug :
    ∃ s : NNState,
      nndata_init (some rows10) (some rows10) (3/10) (fun m => m % 10) 3 =
        Except.ok s ∧
      s.train_indices = [0, 1, 2] ∧
      s.test_indices = [3, 4, 5, 6, 7, 8, 9] ∧
      (split_set (fun m => m % 10) 0 (some (3/10)) s).train_indices = [0, 1, 2] ∧
      (split_set (fun m => m % 10) 0 (some (3/10)) s).test_indices.length = 14 ∧
      (split_set (fun m => m % 10) 0 (some (3/10))
        (split_set (fun m => m % 10) 0 (some (3/10)) s)).test_indices.length = 21 := by
  refine ⟨_, rfl, ?_, ?_, ?_, ?_, ?_⟩ <;> with_unfolding_all decide

end NNData
